import Mathlib

/-
Verification of the resumable translation pipeline in `run-claude.py`.

The script processes a CSV dataset row by row, sending each row's field to an
external completion API, with:
  * a single writer process (`writer`) consuming a queue of per-sample result
    triples and persisting a pickled record of three id-keyed dicts,
  * a retry decorator (`tenacity.retry`) around `process_sample`,
  * a job planner in `main` that diffs the dataset index against the keys
    already present in the checkpoint and optionally samples a subset,
  * a final `pickle_to_csv` materialization step.

Python dicts are embedded as association lists (`Dict`), preserving insertion
order and the overwrite-in-place semantics of `dict.update`.  Randomness
(pandas `DataFrame.sample`, `random.uniform` inside tenacity's
`wait_random_exponential`) is threaded through as explicit oracle functions.
-/

set_option autoImplicit false

namespace RunClaude

/-- Row identifiers: the dataset's stable integer index (`data_frame.index`). -/
abbrev SampleId := Nat

/-- A Python dict keyed by sample id, as an insertion-ordered association list. -/
abbrev Dict (α : Type) := List (SampleId × α)

/-- Key list of a dict (`d.keys()`), in insertion order. -/
def dictKeys {α : Type} (d : Dict α) : List SampleId :=
  d.map Prod.fst

/-- Membership test on a dict (`k in d`). -/
def dictContains {α : Type} (d : Dict α) (k : SampleId) : Bool :=
  (dictKeys d).contains k

/-- Lookup (`d[k]` as an option; first binding wins, and a well-formed dict
has at most one binding per key). -/
def dictGet {α : Type} (d : Dict α) (k : SampleId) : Option α :=
  (d.find? (fun p => p.1 == k)).map Prod.snd

/-- Single-key write `d[k] = v`: overwrite in place when the key exists,
append otherwise — exactly the CPython dict insertion behaviour. -/
def dictInsert {α : Type} : Dict α → SampleId → α → Dict α
  | [], k, v => [(k, v)]
  | p :: rest, k, v =>
      if p.1 == k then (k, v) :: rest else p :: dictInsert rest k v

/-- Bulk write `d.update(nd)`: fold the bindings of `nd` into `d` in order. -/
def dictUpdate {α : Type} (d nd : Dict α) : Dict α :=
  nd.foldl (fun acc p => dictInsert acc p.1 p.2) d

/-- The durable aggregate persisted by `writer`: three parallel id-keyed
mappings (`query_inputs`, `llm_responses`, `llm_full_responses`).  The raw
response envelope is kept abstract in `Raw`. -/
structure CheckpointRecord (Raw : Type) where
  query_inputs : Dict String
  llm_responses : Dict String
  llm_full_responses : Dict Raw
deriving Repr

/-- A queue item produced by a successful `process_sample`: the tuple of the
three local dicts `(local_query_inputs, local_llm_responses,
local_llm_full_responses)`. -/
abbrev WorkResult (Raw : Type) := Dict String × Dict String × Dict Raw

/-- One iteration of the writer loop body on a non-sentinel item: update the
three in-memory dicts with the item's local dicts (the subsequent
`pickle.dump` persists exactly this state). -/
def writerStep {Raw : Type} (st : CheckpointRecord Raw) (item : WorkResult Raw) :
    CheckpointRecord Raw :=
  { query_inputs := dictUpdate st.query_inputs item.1
    llm_responses := dictUpdate st.llm_responses item.2.1
    llm_full_responses := dictUpdate st.llm_full_responses item.2.2 }

/-- The writer loop, given the loaded initial record and the sequence of queue
items it will dequeue (`none` is the sentinel value `None`).  Returns the list
of records persisted by `pickle.dump`, in order: the loop persists after every
non-sentinel item and breaks at the first sentinel. -/
def writerRun {Raw : Type} (st : CheckpointRecord Raw) :
    List (Option (WorkResult Raw)) → List (CheckpointRecord Raw)
  | [] => []
  | none :: _ => []
  | some item :: rest =>
      let st' := writerStep st item
      st' :: writerRun st' rest

/-- The queue item built by a successful `process_sample` run for `sample_id`:
each of the three local dicts is the singleton `{sample_id: value}`. -/
def processSampleItem {Raw : Type} (sample_id : SampleId)
    (prompt_content answer : String) (response : Raw) : WorkResult Raw :=
  ([(sample_id, prompt_content)], [(sample_id, answer)], [(sample_id, response)])

/-- Embedding of `remaining_sets = data_frame[~data_frame.index.isin(requesed_ids)]`
from `main`, at the level of the index: the dataset ids whose id is not among the
checkpoint's `query_inputs` keys. -/
def remainingSets (datasetIds : List SampleId) (requesed_ids : List SampleId) :
    List SampleId :=
  datasetIds.filter (fun i => !(requesed_ids.contains i))

/-- Embedding of `pandas.DataFrame.sample(n)` (default `replace=False`) restricted to the
index: raises for a negative `n`, raises when `n` exceeds the population
(`"Cannot take a larger sample than population when replace=False"`),
otherwise returns `n` rows drawn without replacement.  The random choice is
modelled by the oracle `shuffle`, assumed elsewhere to permute its input. -/
def pandasSample (rows : List SampleId) (n : Int)
    (shuffle : List SampleId → List SampleId) : Except String (List SampleId) :=
  if n < 0 then
    .error "A negative number of rows requested. Please provide n >= 0."
  else if rows.length < n.toNat then
    .error "Cannot take a larger sample than population when replace=False"
  else
    .ok ((shuffle rows).take n.toNat)

/-- The planner's `sample_bag` in `main`: all of `remaining` when
`sample_size == -1`, else `remaining_sets.sample(sample_size).index.tolist()`. -/
def sampleBag (remaining : List SampleId) (sample_size : Int)
    (shuffle : List SampleId → List SampleId) : Except String (List SampleId) :=
  if sample_size = -1 then .ok remaining
  else pandasSample remaining sample_size shuffle

/-- The full planning step of `main`: load `prev_query_inputs` from the
checkpoint (empty when the file is absent), diff the dataset index against its
keys, then sample. -/
def plan {Raw : Type} (datasetIds : List SampleId) (checkpoint : CheckpointRecord Raw)
    (sample_size : Int) (shuffle : List SampleId → List SampleId) :
    Except String (List SampleId) :=
  sampleBag (remainingSets datasetIds (dictKeys checkpoint.query_inputs))
    sample_size shuffle

/-- The execution trace of one `process_sample` task under the decorator
`@retry(wait=wait_random_exponential(min=1, max=60), stop=stop_after_attempt(6))`:
how often the wrapped body ran, how often the `finally:` block ran
`pbar.update(1)`, the sleeps between attempts, and whether the last attempt
succeeded (`success = false` means the error propagated out uncaught, as
tenacity re-raises after `stop_after_attempt(6)`). -/
structure RetryTrace where
  calls : Nat
  pbarUpdates : Nat
  delays : List ℚ
  success : Bool
deriving Repr, DecidableEq

/-- Upper end of tenacity's randomized window after the given failed attempt:
`wait_exponential.__call__` with `multiplier=1, exp_base=2, min=1, max=60`
computes `max(max(0, min), min(multiplier * exp_base**(attempt_number - 1), max))`. -/
def waitHigh (attempt : Nat) : ℚ :=
  max (max 0 1) (min ((2 : ℚ) ^ (attempt - 1)) 60)

/-- Sleep chosen by `wait_random_exponential.__call__`: `random.uniform(0, high)`,
with the unit draw supplied by the oracle `u` (so the sleep is `u attempt * high`). -/
def waitDelay (u : Nat → ℚ) (attempt : Nat) : ℚ :=
  u attempt * waitHigh attempt

/-- The tenacity retry loop around `process_sample`, from the given attempt
number with the given fuel: each attempt runs the body (whose success on
attempt `a` is `ok a`), always runs the `finally:` block, and either returns,
re-raises after the 6th attempt (`stop_after_attempt(6)`), or sleeps and
retries. -/
def retryGo (ok : Nat → Bool) (u : Nat → ℚ) (attempt fuel : Nat) : RetryTrace :=
  match fuel with
  | 0 => ⟨0, 0, [], false⟩
  | fuel + 1 =>
    if ok attempt then ⟨1, 1, [], true⟩
    else if 6 ≤ attempt then ⟨1, 1, [], false⟩
    else
      let t := retryGo ok u (attempt + 1) fuel
      ⟨t.calls + 1, t.pbarUpdates + 1, waitDelay u attempt :: t.delays, t.success⟩

/-- One decorated `process_sample` task: the retry loop starting at attempt 1
with budget `stop_after_attempt(6)`. -/
def process_sample (ok : Nat → Bool) (u : Nat → ℚ) : RetryTrace :=
  retryGo ok u 1 6

/-- File contents observable at each crash point of one writer persist, which
is `with open(output_file, "wb") as f: pickle.dump(store_df, f)`: the old
bytes before the open, the empty file right after `open(..., "wb")` truncates,
and every prefix of the new bytes as the dump proceeds, ending with the
complete new bytes. -/
def persistCrashStates (oldContent newContent : List Nat) : List (List Nat) :=
  oldContent :: (List.range (newContent.length + 1)).map (fun i => newContent.take i)

/-- One output row of `pickle_to_csv`: the id and the three column values,
`none` standing for the NaN pandas fills in when a key is missing from one of
the aligned series. -/
structure CsvRow where
  rowId : SampleId
  query_inputs : Option String
  responses : Option String
  full_responses : Option String
deriving Repr, DecidableEq

/-- The row index of the DataFrame built by `pickle_to_csv`: aligning the
three `pd.Series` yields the union of their key sets, each id once. -/
def csvIndex {Raw : Type} (data : CheckpointRecord Raw) : List SampleId :=
  (dictKeys data.query_inputs ++ dictKeys data.llm_responses ++
    dictKeys data.llm_full_responses).dedup

/-- The rows of `pickle_to_csv`'s DataFrame: for each aligned id, columns
`query_inputs`, `responses` and `full_responses`, the last from
`{k: str(v) for k, v in data["llm_full_responses"].items()}` with `str`
rendered by `pyStr`. -/
def pickle_to_csv {Raw : Type} (pyStr : Raw → String) (data : CheckpointRecord Raw) :
    List CsvRow :=
  (csvIndex data).map (fun k =>
    { rowId := k
      query_inputs := dictGet data.query_inputs k
      responses := dictGet data.llm_responses k
      full_responses := dictGet (data.llm_full_responses.map (fun p => (p.1, pyStr p.2))) k })

/-- Python `str.replace` on character lists: replace every non-overlapping
occurrence of `pat`, scanning left to right.  After emitting a replacement the
scanner still has to consume the `pat.length - 1` remaining matched
characters; `skip` counts those.  (Used only with the non-empty pattern
`".pkl"`; for an empty `pat` this is the identity.) -/
def replaceGo (pat rep : List Char) : List Char → Nat → List Char
  | [], _ => []
  | _ :: rest, skip + 1 => replaceGo pat rep rest skip
  | c :: rest, 0 =>
      if pat.isPrefixOf (c :: rest) && !pat.isEmpty then
        rep ++ replaceGo pat rep rest (pat.length - 1)
      else
        c :: replaceGo pat rep rest 0

/-- Python `s.replace(pat, rep)` on strings. -/
def strReplace (s pat rep : String) : String :=
  ⟨replaceGo pat.data rep.data s.data 0⟩

/-- Whether `pat` occurs as a contiguous substring of the character list. -/
def containsSub (pat : List Char) : List Char → Bool
  | [] => pat.isEmpty
  | c :: rest => pat.isPrefixOf (c :: rest) || containsSub pat rest

/-- The report path computed at the end of `main`:
`args.output_file.replace(".pkl", ".csv")`. -/
def csvOutputPath (output_file : String) : String :=
  strReplace output_file ".pkl" ".csv"

/-! ### Association-list facts used by the writer theorems -/

theorem dictUpdate_nil {α : Type} (d : Dict α) : dictUpdate d [] = d := rfl

theorem dictUpdate_cons {α : Type} (d : Dict α) (p : SampleId × α) (rest : Dict α) :
    dictUpdate d (p :: rest) = dictUpdate (dictInsert d p.1 p.2) rest := rfl

theorem dictInsert_nil {α : Type} (k : SampleId) (v : α) :
    dictInsert [] k v = [(k, v)] := rfl

theorem dictInsert_cons {α : Type} (p : SampleId × α) (rest : Dict α)
    (k : SampleId) (v : α) :
    dictInsert (p :: rest) k v =
      if p.1 == k then (k, v) :: rest else p :: dictInsert rest k v := rfl

theorem mem_dictKeys_cons {α : Type} (p : SampleId × α) (d : Dict α) (j : SampleId) :
    j ∈ dictKeys (p :: d) ↔ j = p.1 ∨ j ∈ dictKeys d := by
  simp [dictKeys]

theorem mem_dictKeys_dictInsert {α : Type} (d : Dict α) (k : SampleId) (v : α)
    (j : SampleId) : j ∈ dictKeys (dictInsert d k v) ↔ j = k ∨ j ∈ dictKeys d := by
  induction d with
  | nil =>
      rw [dictInsert_nil, mem_dictKeys_cons]
  | cons p rest ih =>
      rw [dictInsert_cons]
      by_cases h : (p.1 == k) = true
      · have hp : p.1 = k := by simpa using h
        rw [if_pos h, mem_dictKeys_cons, mem_dictKeys_cons, hp]
        tauto
      · rw [if_neg h, mem_dictKeys_cons, mem_dictKeys_cons, ih]
        tauto

theorem dictGet_nil {α : Type} (j : SampleId) : dictGet ([] : Dict α) j = none := rfl

theorem dictGet_cons {α : Type} (p : SampleId × α) (d : Dict α) (j : SampleId) :
    dictGet (p :: d) j = if p.1 == j then some p.2 else dictGet d j := by
  by_cases h : (p.1 == j) = true
  · simp [dictGet, List.find?_cons_of_pos, h]
  · rw [if_neg h]
    have hb : (p.1 == j) = false := by simpa using h
    simp [dictGet, List.find?_cons_of_neg, hb]

theorem dictGet_dictInsert_self {α : Type} (d : Dict α) (k : SampleId) (v : α) :
    dictGet (dictInsert d k v) k = some v := by
  induction d with
  | nil => simp [dictInsert_nil, dictGet_cons]
  | cons p rest ih =>
      rw [dictInsert_cons]
      by_cases h : (p.1 == k) = true
      · rw [if_pos h, dictGet_cons, if_pos (by simp)]
      · rw [if_neg h, dictGet_cons, if_neg h, ih]

theorem dictGet_dictInsert_ne {α : Type} (d : Dict α) (k : SampleId) (v : α)
    (j : SampleId) (hj : j ≠ k) : dictGet (dictInsert d k v) j = dictGet d j := by
  have hkj : (k == j) = false := by simpa using fun h => hj h.symm
  induction d with
  | nil => simp [dictInsert_nil, dictGet_cons, dictGet_nil, hkj]
  | cons p rest ih =>
      rw [dictInsert_cons]
      by_cases h : (p.1 == k) = true
      · have hp : p.1 = k := by simpa using h
        rw [if_pos h, dictGet_cons, dictGet_cons, hp]
        simp [hkj]
      · rw [if_neg h, dictGet_cons, dictGet_cons, ih]

theorem mem_dictKeys_dictUpdate {α : Type} (nd : Dict α) :
    ∀ (d : Dict α) (j : SampleId),
      j ∈ dictKeys (dictUpdate d nd) ↔ j ∈ dictKeys d ∨ j ∈ dictKeys nd := by
  induction nd with
  | nil => intro d j; simp [dictUpdate_nil, dictKeys]
  | cons p rest ih =>
      intro d j
      rw [dictUpdate_cons, ih, mem_dictKeys_dictInsert]
      simp [dictKeys]
      tauto

theorem writerRun_nil {Raw : Type} (st : CheckpointRecord Raw) :
    writerRun st [] = [] := rfl

theorem writerRun_none {Raw : Type} (st : CheckpointRecord Raw)
    (rest : List (Option (WorkResult Raw))) : writerRun st (none :: rest) = [] := rfl

theorem writerRun_some {Raw : Type} (st : CheckpointRecord Raw) (w : WorkResult Raw)
    (rest : List (Option (WorkResult Raw))) :
    writerRun st (some w :: rest) =
      writerStep st w :: writerRun (writerStep st w) rest := rfl

/-- Alignment of a queue item: its three local dicts bind the same keys. -/
def itemKeysAligned {Raw : Type} (w : WorkResult Raw) : Prop :=
  ∀ k, (k ∈ dictKeys w.1 ↔ k ∈ dictKeys w.2.1) ∧
       (k ∈ dictKeys w.1 ↔ k ∈ dictKeys w.2.2)

/-- Alignment of a checkpoint record: its three mappings bind the same keys. -/
def recKeysAligned {Raw : Type} (r : CheckpointRecord Raw) : Prop :=
  ∀ k, (k ∈ dictKeys r.query_inputs ↔ k ∈ dictKeys r.llm_responses) ∧
       (k ∈ dictKeys r.query_inputs ↔ k ∈ dictKeys r.llm_full_responses)

theorem recKeysAligned_writerStep {Raw : Type} (st : CheckpointRecord Raw)
    (w : WorkResult Raw) (hst : recKeysAligned st) (hw : itemKeysAligned w) :
    recKeysAligned (writerStep st w) := by
  intro k
  have h1 := hst k
  have h2 := hw k
  simp only [writerStep, mem_dictKeys_dictUpdate]
  tauto

theorem writerRun_all_aligned {Raw : Type} :
    ∀ (queue : List (Option (WorkResult Raw))) (init : CheckpointRecord Raw),
      recKeysAligned init →
      (∀ w : WorkResult Raw, some w ∈ queue → itemKeysAligned w) →
      ∀ rec ∈ writerRun init queue, recKeysAligned rec := by
  intro queue
  induction queue with
  | nil =>
      intro init _ _ rec hrec
      simp [writerRun_nil] at hrec
  | cons it rest ih =>
      intro init hinit hq rec hrec
      cases it with
      | none => simp [writerRun_none] at hrec
      | some w =>
          rw [writerRun_some] at hrec
          have hw : itemKeysAligned w := hq w (by simp)
          have hst : recKeysAligned (writerStep init w) :=
            recKeysAligned_writerStep _ _ hinit hw
          rcases List.mem_cons.mp hrec with h | h
          · exact h ▸ hst
          · exact ih (writerStep init w) hst
              (fun w2 hw2 => hq w2 (by simp [hw2])) rec h

/-! ### Claim theorems about the Aggregator (writer) -/

/-- C5: after every successful persist by the writer, the three id-keyed
mappings of the persisted record bind exactly the same key set.  A successful
`process_sample` always enqueues an item whose three local dicts share the
singleton key set `{sample_id}`, and the writer, started from a record whose
mappings are key-aligned, only ever persists key-aligned records when every
dequeued item is key-aligned. -/
theorem writer_persists_aligned_key_sets {Raw : Type} (init : CheckpointRecord Raw)
    (queue : List (Option (WorkResult Raw)))
    (hinit : recKeysAligned init)
    (hq : ∀ w : WorkResult Raw, some w ∈ queue → itemKeysAligned w) :
    (∀ (sid : SampleId) (c a : String) (r : Raw),
        itemKeysAligned (processSampleItem sid c a r)) ∧
    ∀ rec ∈ writerRun init queue, recKeysAligned rec := by
  constructor
  · intro sid c a r k
    simp [processSampleItem, dictKeys]
  · exact writerRun_all_aligned queue init hinit hq

/-- Witness for C5 at a concrete run: one successful result for id 0 consumed
from an empty initial record yields an aligned persisted record. -/
theorem writer_persists_aligned_key_sets_witness :
    recKeysAligned
      (writerStep (⟨[], [], []⟩ : CheckpointRecord Unit)
        (processSampleItem 0 "hola" "HOLA_EN" ())) := by
  have h := writer_persists_aligned_key_sets (⟨[], [], []⟩ : CheckpointRecord Unit)
    [some (processSampleItem 0 "hola" "HOLA_EN" ())]
    (by intro k; simp [dictKeys])
    (by
      intro w hw
      simp at hw
      subst hw
      intro k
      simp [processSampleItem, dictKeys])
  exact h.2 _ (by rw [writerRun_some]; exact List.mem_cons_self _ _)

/-- C9: the writer's state is monotone — a key present in any of the three
mappings before a consumed result is still present after it — and a later
result for the same id overwrites the earlier values (dict update is
last-write-wins). -/
theorem writer_monotone_last_write_wins {Raw : Type} (st : CheckpointRecord Raw)
    (item : WorkResult Raw) (k sid : SampleId) (c a : String) (r : Raw) :
    (k ∈ dictKeys st.query_inputs → k ∈ dictKeys (writerStep st item).query_inputs) ∧
    (k ∈ dictKeys st.llm_responses → k ∈ dictKeys (writerStep st item).llm_responses) ∧
    (k ∈ dictKeys st.llm_full_responses →
      k ∈ dictKeys (writerStep st item).llm_full_responses) ∧
    dictGet (writerStep st (processSampleItem sid c a r)).query_inputs sid = some c ∧
    dictGet (writerStep st (processSampleItem sid c a r)).llm_responses sid = some a ∧
    dictGet (writerStep st (processSampleItem sid c a r)).llm_full_responses sid = some r := by
  refine ⟨?_, ?_, ?_, ?_, ?_, ?_⟩
  · intro h
    simp only [writerStep, mem_dictKeys_dictUpdate]
    exact Or.inl h
  · intro h
    simp only [writerStep, mem_dictKeys_dictUpdate]
    exact Or.inl h
  · intro h
    simp only [writerStep, mem_dictKeys_dictUpdate]
    exact Or.inl h
  · exact dictGet_dictInsert_self _ _ _
  · exact dictGet_dictInsert_self _ _ _
  · exact dictGet_dictInsert_self _ _ _

/-- Witness for C9: a second result for id 0 keeps the key and replaces the
stored values. -/
theorem writer_monotone_last_write_wins_witness :
    (0 ∈ dictKeys
        (writerStep (⟨[(0, "old")], [(0, "oldresp")], [(0, ())]⟩ : CheckpointRecord Unit)
          (processSampleItem 0 "new" "newresp" ())).query_inputs) ∧
    dictGet
        (writerStep (⟨[(0, "old")], [(0, "oldresp")], [(0, ())]⟩ : CheckpointRecord Unit)
          (processSampleItem 0 "new" "newresp" ())).llm_responses 0 = some "newresp" := by
  have h := writer_monotone_last_write_wins
    (⟨[(0, "old")], [(0, "oldresp")], [(0, ())]⟩ : CheckpointRecord Unit)
    (processSampleItem 0 "new" "newresp" ()) 0 0 "new" "newresp" ()
  exact ⟨h.1 (by simp [dictKeys]), h.2.2.2.2.1⟩

/-- C10: the sentinel is `None` — the writer persists one record per queue item
dequeued before the first `None` (so it persists all of them), and the first
`None` terminates it: everything enqueued after the sentinel is ignored. -/
theorem writer_stops_at_first_sentinel {Raw : Type} (init : CheckpointRecord Raw)
    (pre post : List (Option (WorkResult Raw)))
    (hpre : ∀ x ∈ pre, x ≠ none) :
    writerRun init (pre ++ none :: post) = writerRun init pre ∧
    (writerRun init pre).length = pre.length := by
  revert hpre
  induction pre generalizing init with
  | nil =>
      intro _
      simp [writerRun_nil, writerRun_none]
  | cons it rest ih =>
      intro hpre
      cases it with
      | none => exact absurd rfl (hpre none (by simp))
      | some w =>
          have h := ih (writerStep init w) (fun x hx => hpre x (by simp [hx]))
          constructor
          · rw [List.cons_append, writerRun_some, writerRun_some, h.1]
          · rw [writerRun_some]
            simp [h.2]

/-- Witness for C10: one result then the sentinel, from an empty record. -/
theorem writer_stops_at_first_sentinel_witness :
    writerRun (⟨[], [], []⟩ : CheckpointRecord Unit)
        [some (processSampleItem 0 "hola" "HOLA_EN" ()), none] =
      writerRun (⟨[], [], []⟩ : CheckpointRecord Unit)
        [some (processSampleItem 0 "hola" "HOLA_EN" ())] ∧
    (writerRun (⟨[], [], []⟩ : CheckpointRecord Unit)
        [some (processSampleItem 0 "hola" "HOLA_EN" ())]).length = 1 := by
  have h := writer_stops_at_first_sentinel (⟨[], [], []⟩ : CheckpointRecord Unit)
    [some (processSampleItem 0 "hola" "HOLA_EN" ())] []
    (by intro x hx; simp at hx; simp [hx])
  exact ⟨h.1, h.2⟩

/-! ### Claim theorems about the Job Planner -/

theorem mem_of_mem_sampleBag (remaining : List SampleId) (n : Int)
    (shuffle : List SampleId → List SampleId)
    (hshuffle : ∀ l, (shuffle l).Perm l) (bag : List SampleId)
    (hbag : sampleBag remaining n shuffle = .ok bag) :
    ∀ i ∈ bag, i ∈ remaining := by
  intro i hi
  unfold sampleBag pandasSample at hbag
  by_cases h1 : n = -1
  · rw [if_pos h1] at hbag
    obtain rfl : remaining = bag := by simpa using hbag
    exact hi
  · rw [if_neg h1] at hbag
    by_cases h2 : n < 0
    · rw [if_pos h2] at hbag
      simp at hbag
    · rw [if_neg h2] at hbag
      by_cases h3 : remaining.length < n.toNat
      · rw [if_pos h3] at hbag
        simp at hbag
      · rw [if_neg h3] at hbag
        obtain rfl : (shuffle remaining).take n.toNat = bag := by simpa using hbag
        exact (hshuffle remaining).mem_iff.mp (List.take_subset _ _ hi)

theorem not_mem_requesed_of_mem_remainingSets (datasetIds requesed : List SampleId)
    (i : SampleId) (hi : i ∈ remainingSets datasetIds requesed) : i ∉ requesed := by
  unfold remainingSets at hi
  have hfilter := List.of_mem_filter hi
  intro hmem
  simp at hfilter
  exact hfilter hmem

/-- C1: the work set is the dataset's ids minus the checkpoint's ids — every id
the planner selects is absent from the checkpoint's `query_inputs` mapping, so
an id already present in the loaded checkpoint is never planned (hence never
reprocessed) by a run against that checkpoint. -/
theorem plan_excludes_checkpointed {Raw : Type} (datasetIds : List SampleId)
    (checkpoint : CheckpointRecord Raw) (sample_size : Int)
    (shuffle : List SampleId → List SampleId)
    (hshuffle : ∀ l, (shuffle l).Perm l)
    (bag : List SampleId)
    (hbag : plan datasetIds checkpoint sample_size shuffle = .ok bag)
    (k : SampleId) (hk : k ∈ dictKeys checkpoint.query_inputs) :
    k ∉ bag := by
  intro hmem
  have hrem := mem_of_mem_sampleBag _ _ _ hshuffle _ hbag k hmem
  exact not_mem_requesed_of_mem_remainingSets _ _ _ hrem hk

/-- Witness for C1: id 0 is checkpointed, the plan over dataset `[0, 1]` is
`[1]`, and 0 is not in it. -/
theorem plan_excludes_checkpointed_witness :
    (0 : SampleId) ∈ dictKeys
        (⟨[(0, "hola")], [(0, "HOLA_EN")], [(0, ())]⟩ :
          CheckpointRecord Unit).query_inputs ∧
    (0 : SampleId) ∉ [1] := by
  refine ⟨by simp [dictKeys], ?_⟩
  exact plan_excludes_checkpointed [0, 1]
    ⟨[(0, "hola")], [(0, "HOLA_EN")], [(0, ())]⟩ (-1) (fun l => l)
    (fun l => List.Perm.refl l) [1] (by rfl) 0 (by simp [dictKeys])

/-- C2 counterexample: with one remaining id and `sample_size = 2`, planning
raises the pandas larger-sample-than-population error instead of silently
capping at `|remaining|`. -/
theorem plan_raises_on_oversample :
    plan [0] (⟨[], [], []⟩ : CheckpointRecord Unit) 2 (fun l => l) =
      Except.error
        "Cannot take a larger sample than population when replace=False" := rfl

/-- C2 (amended): `sample_size = -1` selects all of `remaining`; for
`0 ≤ sample_size ≤ |remaining|` the plan is exactly `sample_size` distinct ids
drawn without replacement from `remaining`; but when `sample_size` exceeds
`|remaining|`, planning raises (pandas `DataFrame.sample` with
`replace=False`) rather than capping. -/
theorem plan_sampling_spec {Raw : Type} (datasetIds : List SampleId)
    (checkpoint : CheckpointRecord Raw) (k : Int)
    (shuffle : List SampleId → List SampleId)
    (hshuffle : ∀ l, (shuffle l).Perm l)
    (hnd : datasetIds.Nodup) :
    (k = -1 → plan datasetIds checkpoint k shuffle =
        .ok (remainingSets datasetIds (dictKeys checkpoint.query_inputs))) ∧
    (0 ≤ k →
      k.toNat ≤ (remainingSets datasetIds (dictKeys checkpoint.query_inputs)).length →
      ∃ bag, plan datasetIds checkpoint k shuffle = .ok bag ∧
        bag.length = k.toNat ∧ bag.Nodup ∧
        ∀ i ∈ bag, i ∈ remainingSets datasetIds (dictKeys checkpoint.query_inputs)) ∧
    (0 ≤ k →
      (remainingSets datasetIds (dictKeys checkpoint.query_inputs)).length < k.toNat →
      plan datasetIds checkpoint k shuffle =
        .error "Cannot take a larger sample than population when replace=False") := by
  set remaining := remainingSets datasetIds (dictKeys checkpoint.query_inputs) with hrdef
  have hrnd : remaining.Nodup := List.Nodup.filter _ hnd
  refine ⟨?_, ?_, ?_⟩
  · intro hk
    subst hk
    unfold plan sampleBag
    rw [if_pos rfl]
  · intro hk0 hklen
    have hkne : ¬ k = -1 := by omega
    have hknlt : ¬ k < 0 := by omega
    have hnotbig : ¬ remaining.length < k.toNat := by omega
    refine ⟨(shuffle remaining).take k.toNat, ?_, ?_, ?_, ?_⟩
    · unfold plan sampleBag pandasSample
      rw [if_neg hkne, if_neg hknlt, if_neg hnotbig]
    · rw [List.length_take, (hshuffle remaining).length_eq]
      omega
    · exact List.Nodup.sublist (List.take_sublist _ _)
        (((hshuffle remaining).symm).nodup hrnd)
    · intro i hi
      exact (hshuffle remaining).mem_iff.mp (List.take_subset _ _ hi)
  · intro hk0 hbig
    have hkne : ¬ k = -1 := by omega
    have hknlt : ¬ k < 0 := by omega
    unfold plan sampleBag pandasSample
    rw [if_neg hkne, if_neg hknlt, if_pos hbig]

/-- Witness for C2 (amended): dataset `[0, 1]`, empty checkpoint,
`sample_size = 1` yields one distinct remaining id. -/
theorem plan_sampling_spec_witness :
    ∃ bag, plan [0, 1] (⟨[], [], []⟩ : CheckpointRecord Unit) 1 (fun l => l) =
        .ok bag ∧
      bag.length = Int.toNat 1 ∧ bag.Nodup ∧
      ∀ i ∈ bag,
        i ∈ remainingSets [0, 1]
            (dictKeys (⟨[], [], []⟩ : CheckpointRecord Unit).query_inputs) := by
  exact (plan_sampling_spec [0, 1] ⟨[], [], []⟩ 1 (fun l => l)
    (fun l => List.Perm.refl l) (by decide)).2.1 (by decide) (by decide)

/-! ### Claim theorems about retry, progress, and persist atomicity -/

theorem waitHigh_bounds (a : Nat) : 1 ≤ waitHigh a ∧ waitHigh a ≤ 60 := by
  unfold waitHigh
  constructor
  · exact le_max_of_le_left (by norm_num)
  · exact max_le (by norm_num) (min_le_right _ _)

theorem waitDelay_bounds (u : Nat → ℚ) (hu : ∀ a, 0 ≤ u a ∧ u a ≤ 1) (a : Nat) :
    0 ≤ waitDelay u a ∧ waitDelay u a ≤ 60 := by
  have hh := waitHigh_bounds a
  have hh0 : 0 ≤ waitHigh a := le_trans zero_le_one hh.1
  constructor
  · exact mul_nonneg (hu a).1 hh0
  · calc u a * waitHigh a ≤ 1 * waitHigh a :=
          mul_le_mul_of_nonneg_right (hu a).2 hh0
      _ = waitHigh a := one_mul _
      _ ≤ 60 := hh.2

/-- C3 (amended): a task whose external call always fails makes exactly 6
invocations of `process_sample`'s body, after which the error propagates
uncaught; there are 5 inter-attempt backoff sleeps, each of them within
[0, 60] seconds — `wait_random_exponential(min=1, max=60)` draws
`uniform(0, high)` with `high ∈ [1, 60]`, so a sleep may fall below 1 s. -/
theorem retry_always_fail_six_calls (u : Nat → ℚ)
    (hu : ∀ a, 0 ≤ u a ∧ u a ≤ 1) :
    (process_sample (fun _ => false) u).calls = 6 ∧
    (process_sample (fun _ => false) u).success = false ∧
    (process_sample (fun _ => false) u).delays =
      [waitDelay u 1, waitDelay u 2, waitDelay u 3, waitDelay u 4, waitDelay u 5] ∧
    ∀ d ∈ (process_sample (fun _ => false) u).delays, 0 ≤ d ∧ d ≤ 60 := by
  have htrace : process_sample (fun _ => false) u =
      ⟨6, 6, [waitDelay u 1, waitDelay u 2, waitDelay u 3, waitDelay u 4,
        waitDelay u 5], false⟩ := rfl
  refine ⟨by rw [htrace], by rw [htrace], by rw [htrace], ?_⟩
  rw [htrace]
  intro d hd
  simp only [List.mem_cons, List.not_mem_nil, or_false] at hd
  rcases hd with rfl | rfl | rfl | rfl | rfl <;> exact waitDelay_bounds u hu _

/-- Witness for C3 (amended) at the constant draw 0. -/
theorem retry_always_fail_six_calls_witness :
    (process_sample (fun _ => false) (fun _ => 0)).calls = 6 ∧
    (process_sample (fun _ => false) (fun _ => 0)).success = false := by
  have h := retry_always_fail_six_calls (fun _ => 0)
    (fun a => ⟨le_refl 0, by norm_num⟩)
  exact ⟨h.1, h.2.1⟩

/-- C3 counterexample: with the always-failing client and the uniform draw
1/2, the first backoff sleep is `uniform(0, 1) = 1/2` seconds — below the
claimed lower bound of 1 second. -/
theorem retry_delay_below_one :
    (process_sample (fun _ => false) (fun _ => (1 : ℚ) / 2)).delays.head? =
      some (1 / 2) ∧ ¬ ((1 : ℚ) ≤ 1 / 2) := by
  constructor
  · show some (waitDelay (fun _ => (1 : ℚ) / 2) 1) = some ((1 : ℚ) / 2)
    unfold waitDelay waitHigh
    norm_num
  · norm_num

/-- C6 (code-bug evidence): `pbar.update(1)` sits in the `finally:` block of
the `@retry`-decorated `process_sample`, so it runs once per attempt, not once
per task — a task failing once and succeeding on the second attempt advances
the counter twice, and an always-failing task advances it six times, although
`main` sizes the bar as one tick per planned sample. -/
theorem pbar_incremented_per_attempt :
    (process_sample (fun a => decide (1 < a)) (fun _ => 0)).pbarUpdates = 2 ∧
    (process_sample (fun a => decide (1 < a)) (fun _ => 0)).success = true ∧
    (process_sample (fun _ => false) (fun _ => 0)).pbarUpdates = 6 :=
  ⟨rfl, rfl, rfl⟩

/-- C4 counterexample: persisting the new serialized bytes `[2, 3]` over the
old bytes `[1]` exposes the empty truncated file at the crash point right
after `open(output_file, "wb")` — a state that is neither the complete old
record nor the complete new one. -/
theorem persist_truncation_visible :
    ([] : List Nat) ∈ persistCrashStates [1] [2, 3] ∧
    ([] : List Nat) ≠ [1] ∧ ([] : List Nat) ≠ [2, 3] := by
  refine ⟨by decide, by decide, by decide⟩

/-- C4 (amended): the persist is a truncate-then-write in place (no temporary
file and rename), so the states observable after a crash are exactly the old
content and the prefixes of the new content: a mid-write crash can leave a
proper prefix — in particular the empty file — rather than either complete
record. -/
theorem persist_crash_states_spec (oldContent newContent : List Nat) :
    oldContent ∈ persistCrashStates oldContent newContent ∧
    newContent ∈ persistCrashStates oldContent newContent ∧
    ∀ s ∈ persistCrashStates oldContent newContent,
      s = oldContent ∨ ∃ n, n ≤ newContent.length ∧ s = newContent.take n := by
  refine ⟨by simp [persistCrashStates], ?_, ?_⟩
  · unfold persistCrashStates
    refine List.mem_cons_of_mem _ (List.mem_map.mpr ?_)
    exact ⟨newContent.length, by simp [List.mem_range], List.take_length _⟩
  · intro s hs
    unfold persistCrashStates at hs
    rcases List.mem_cons.mp hs with h | h
    · exact Or.inl h
    · rcases List.mem_map.mp h with ⟨n, hn, rfl⟩
      exact Or.inr ⟨n, Nat.lt_succ_iff.mp (List.mem_range.mp hn), rfl⟩

/-- Witness for C4 (amended) on concrete old and new contents. -/
theorem persist_crash_states_spec_witness :
    ([1] ∈ persistCrashStates [1] [2, 3]) ∧
    ([2, 3] ∈ persistCrashStates [1] [2, 3]) ∧
    ([2] = [1] ∨ ∃ n, n ≤ ([2, 3] : List Nat).length ∧ [2] = [2, 3].take n) := by
  have h := persist_crash_states_spec [1] [2, 3]
  exact ⟨h.1, h.2.1, h.2.2 [2] (by decide)⟩

/-! ### Claim theorems about the Report Materializer -/

theorem dictGet_map {α β : Type} (g : α → β) (d : Dict α) (k : SampleId) :
    dictGet (d.map (fun p => (p.1, g p.2))) k = (dictGet d k).map g := by
  induction d with
  | nil => rfl
  | cons p rest ih =>
      rw [List.map_cons, dictGet_cons, dictGet_cons]
      by_cases h : (p.1 == k) = true
      · simp [h]
      · have hb : (p.1 == k) = false := by simpa using h
        simp [hb, ih]

theorem dictGet_isSome_of_mem {α : Type} (d : Dict α) (k : SampleId)
    (h : k ∈ dictKeys d) : ∃ v, dictGet d k = some v := by
  induction d with
  | nil => simp [dictKeys] at h
  | cons p rest ih =>
      rw [dictGet_cons]
      by_cases hb : (p.1 == k) = true
      · exact ⟨p.2, by rw [if_pos hb]⟩
      · rcases (mem_dictKeys_cons p rest k).mp h with h1 | h1
        · exact absurd (by simp [h1]) hb
        · rcases ih h1 with ⟨v, hv⟩
          exact ⟨v, by rw [if_neg hb, hv]⟩

theorem length_eq_of_nodup_of_mem_iff (l1 l2 : List SampleId) (h1 : l1.Nodup)
    (h2 : l2.Nodup) (hmem : ∀ j, j ∈ l1 ↔ j ∈ l2) : l1.length = l2.length := by
  rw [← List.toFinset_card_of_nodup h1, ← List.toFinset_card_of_nodup h2]
  congr 1
  ext j
  simp [hmem j]

/-- C7: for a checkpoint whose three mappings share one key set, the
materializer emits one row per id — exactly `N` rows for a key set of size
`N`, each checkpointed id appearing exactly once — whose columns carry the
original input, the translated text, and the `str`-rendered raw response for
that id. -/
theorem pickle_to_csv_spec {Raw : Type} (pyStr : Raw → String)
    (data : CheckpointRecord Raw)
    (hnd : (dictKeys data.query_inputs).Nodup)
    (hal : recKeysAligned data) :
    (pickle_to_csv pyStr data).length = (dictKeys data.query_inputs).length ∧
    ∀ k ∈ dictKeys data.query_inputs,
      ((pickle_to_csv pyStr data).map CsvRow.rowId).count k = 1 ∧
      (∃ c, dictGet data.query_inputs k = some c) ∧
      ∀ row ∈ pickle_to_csv pyStr data, row.rowId = k →
        row.query_inputs = dictGet data.query_inputs k ∧
        row.responses = dictGet data.llm_responses k ∧
        row.full_responses = (dictGet data.llm_full_responses k).map pyStr := by
  have hmemidx : ∀ j, j ∈ csvIndex data ↔ j ∈ dictKeys data.query_inputs := by
    intro j
    have h1 := (hal j).1
    have h2 := (hal j).2
    unfold csvIndex
    rw [List.mem_dedup]
    simp only [List.mem_append]
    tauto
  have hndidx : (csvIndex data).Nodup := List.nodup_dedup _
  have hmap : (pickle_to_csv pyStr data).map CsvRow.rowId = csvIndex data := by
    unfold pickle_to_csv
    rw [List.map_map]
    show List.map id (csvIndex data) = csvIndex data
    exact List.map_id _
  constructor
  · have : (pickle_to_csv pyStr data).length = (csvIndex data).length := by
      unfold pickle_to_csv
      rw [List.length_map]
    rw [this]
    exact length_eq_of_nodup_of_mem_iff _ _ hndidx hnd hmemidx
  · intro k hk
    refine ⟨?_, dictGet_isSome_of_mem _ _ hk, ?_⟩
    · rw [hmap]
      exact List.count_eq_one_of_mem hndidx ((hmemidx k).mpr hk)
    · intro row hrow hrid
      unfold pickle_to_csv at hrow
      rcases List.mem_map.mp hrow with ⟨k2, _, rfl⟩
      have hk2 : k2 = k := hrid
      subst hk2
      exact ⟨rfl, rfl, dictGet_map pyStr data.llm_full_responses k2⟩

/-- Witness for C7 on a one-entry checkpoint. -/
theorem pickle_to_csv_spec_witness :
    (pickle_to_csv (fun _ => "<resp>")
        (⟨[(0, "hola")], [(0, "HOLA_EN")], [(0, ())]⟩ :
          CheckpointRecord Unit)).length = 1 ∧
    ((pickle_to_csv (fun _ => "<resp>")
        (⟨[(0, "hola")], [(0, "HOLA_EN")], [(0, ())]⟩ :
          CheckpointRecord Unit)).map CsvRow.rowId).count 0 = 1 := by
  have h := pickle_to_csv_spec (fun _ => "<resp>")
    (⟨[(0, "hola")], [(0, "HOLA_EN")], [(0, ())]⟩ : CheckpointRecord Unit)
    (by decide) (fun k => ⟨by simp [dictKeys], by simp [dictKeys]⟩)
  exact ⟨h.1, (h.2 0 (by simp [dictKeys])).1⟩

/-! ### Claim theorems about the report path -/

theorem containsSub_nil (pat : List Char) : containsSub pat [] = pat.isEmpty := rfl

theorem containsSub_cons (pat : List Char) (c : Char) (rest : List Char) :
    containsSub pat (c :: rest) =
      (pat.isPrefixOf (c :: rest) || containsSub pat rest) := rfl

theorem replaceGo_cons_zero (pat rep : List Char) (c : Char) (rest : List Char) :
    replaceGo pat rep (c :: rest) 0 =
      if pat.isPrefixOf (c :: rest) && !pat.isEmpty then
        rep ++ replaceGo pat rep rest (pat.length - 1)
      else
        c :: replaceGo pat rep rest 0 := rfl

theorem eq_append_drop_of_isPrefixOf :
    ∀ (pat l : List Char), pat.isPrefixOf l = true →
      l = pat ++ List.drop pat.length l := by
  intro pat
  induction pat with
  | nil => intro l _; simp
  | cons p ps ih =>
      intro l h
      cases l with
      | nil => simp [List.isPrefixOf] at h
      | cons c rest =>
          have hsplit : (p == c && ps.isPrefixOf rest) = true := h
          have hpc : p = c := by
            have := (Bool.and_eq_true _ _).mp hsplit
            simpa using this.1
          have hrest : rest = ps ++ List.drop ps.length rest :=
            ih rest ((Bool.and_eq_true _ _).mp hsplit).2
          calc c :: rest = p :: rest := by rw [hpc]
            _ = p :: (ps ++ List.drop ps.length rest) := by rw [← hrest]
            _ = (p :: ps) ++ List.drop (p :: ps).length (c :: rest) := by
                simp [List.length_cons, List.drop_succ_cons]

theorem replaceGo_of_not_containsSub (pat rep : List Char) :
    ∀ l, containsSub pat l = false → replaceGo pat rep l 0 = l := by
  intro l
  induction l with
  | nil => intro _; rfl
  | cons c rest ih =>
      intro h
      rw [containsSub_cons] at h
      have h1 : pat.isPrefixOf (c :: rest) = false := by
        cases hx : pat.isPrefixOf (c :: rest)
        · rfl
        · rw [hx] at h; simp at h
      have h2 : containsSub pat rest = false := by
        rw [h1] at h; simpa using h
      rw [replaceGo_cons_zero, if_neg (by simp [h1]), ih h2]

theorem replaceGo_ne_of_containsSub (pat rep : List Char)
    (hlen : pat.length = rep.length) (hne : pat ≠ rep) :
    ∀ l, containsSub pat l = true → replaceGo pat rep l 0 ≠ l := by
  have hpatne : pat ≠ [] := by
    intro hp0
    apply hne
    rw [hp0] at hlen ⊢
    exact (List.length_eq_zero.mp hlen.symm).symm
  intro l
  induction l with
  | nil =>
      intro h
      rw [containsSub_nil] at h
      exact absurd (by simpa [List.isEmpty_iff] using h) hpatne
  | cons c rest ih =>
      intro h hEq
      rw [replaceGo_cons_zero] at hEq
      by_cases hp : (pat.isPrefixOf (c :: rest) && !pat.isEmpty) = true
      · rw [if_pos hp] at hEq
        have hpre : pat.isPrefixOf (c :: rest) = true :=
          ((Bool.and_eq_true _ _).mp hp).1
        have hdec := eq_append_drop_of_isPrefixOf pat (c :: rest) hpre
        have hinj := List.append_inj (hEq.trans hdec) hlen.symm
        exact hne hinj.1.symm
      · rw [if_neg hp] at hEq
        have htail : replaceGo pat rep rest 0 = rest := by
          injection hEq
        have hpre_false : pat.isPrefixOf (c :: rest) = false := by
          cases hx : pat.isPrefixOf (c :: rest)
          · rfl
          · exact absurd (by simp [hx, List.isEmpty_iff, hpatne]) hp
        rw [containsSub_cons, hpre_false] at h
        exact ih (by simpa using h) htail

/-- C8 counterexample: for the configured checkpoint path `"checkpoint.bin"`
(no `".pkl"` in it), `output_file.replace(".pkl", ".csv")` is the checkpoint
path itself, so the final `to_csv` writes over the checkpoint file rather than
to a distinct path. -/
theorem csv_path_collides_with_checkpoint :
    csvOutputPath "checkpoint.bin" = "checkpoint.bin" := rfl

/-- C8 (amended): nothing in the pipeline deletes the checkpoint, and the
report path is the checkpoint path with every `".pkl"` replaced by `".csv"` —
distinct from the checkpoint path exactly when `".pkl"` occurs in it (as in
the default `llm_responses.pkl`); for a checkpoint path without `".pkl"` the
report is written over the checkpoint file itself. -/
theorem csvOutputPath_spec (s : String) :
    csvOutputPath "llm_responses.pkl" = "llm_responses.csv" ∧
    (csvOutputPath s = s ↔ containsSub ".pkl".data s.data = false) := by
  refine ⟨rfl, ?_, ?_⟩
  · intro h
    cases hx : containsSub ".pkl".data s.data
    · rfl
    · exfalso
      have hne := replaceGo_ne_of_containsSub ".pkl".data ".csv".data rfl
        (by decide) s.data hx
      apply hne
      have hdata : (csvOutputPath s).data = s.data := congrArg String.data h
      simpa [csvOutputPath, strReplace] using hdata
  · intro h
    show strReplace s ".pkl" ".csv" = s
    unfold strReplace
    rw [replaceGo_of_not_containsSub _ _ _ h]

/-- Witness for C8 (amended): the default checkpoint path maps to a distinct
csv path. -/
theorem csvOutputPath_spec_witness :
    csvOutputPath "llm_responses.pkl" = "llm_responses.csv" :=
  (csvOutputPath_spec "llm_responses.pkl").1

end RunClaude
